import Mathlib

/-!
Verification development for the catalyst search-tree repository.

The definitions below are shallow embeddings of the Python source:

* src/search/methods/tree_search/beam_search.py  (BeamSearchTree)
* src/search/reward/llm_reward.py                (llm_adsorption_energy_reward)
* src/search/policy/coherent_policy.py           (CoherentPolicy.get_actions)
* src/search/reward/simulation_reward.py         (StructureReward.__call__)
* src/llm/query.py                               (QueryState, parse_answer)
* src/scripts/run_icml_queries.py                (resume branch of main)

Machine floats are modelled as exact rationals (or reals where the source
applies exp), Python lists as Lean lists, Python dicts as insertion-ordered
association lists, and raising code as Except-valued functions.
-/

/-! ### Pythonic list slicing helpers

Python negative-index slicing as used by the source:
a[-k:] keeps the last k elements, except that a[-0:] is the whole list;
a[:-k] drops the last k elements, except that a[:-0] is the empty list.
-/

/-- Embedding of the Python slice a[-k:] (numpy slicing of a 1-d array). -/
def negTail {α : Type _} (l : List α) (k : Nat) : List α :=
  if k = 0 then l else l.drop (l.length - k)

/-- Embedding of the Python slice a[:-k] (numpy slicing of a 1-d array). -/
def negInit {α : Type _} (l : List α) (k : Nat) : List α :=
  if k = 0 then [] else l.take (l.length - k)

theorem negInit_append_negTail {α : Type _} (l : List α) (k : Nat) (hk : k ≠ 0) :
    negInit l k ++ negTail l k = l := by
  simp [negInit, negTail, hk, List.take_append_drop]

theorem length_negTail {α : Type _} (l : List α) (k : Nat) (hk : k ≠ 0) :
    (negTail l k).length = min k l.length := by
  simp only [negTail, if_neg hk, List.length_drop]
  omega

namespace BeamSearch

/-! ### Embedding of numpy argsort

np.argsort returns a permutation of the index range that sorts the values
ascending.  The embedding realizes it with an insertion sort of the indices
ordered by value (ties broken by index); every theorem below depends only on
the two facts proved here: the result is a permutation of the index range and
the values are non-decreasing along it, both of which hold for np.argsort
regardless of its internal sorting algorithm.
-/

/-- Index ordering used by the argsort embedding: compare values at the
indices, break ties by index. -/
def keyRel (l : List ℚ) (i j : Nat) : Prop :=
  l.getD i 0 < l.getD j 0 ∨ (l.getD i 0 = l.getD j 0 ∧ i ≤ j)

instance keyRel.decidable (l : List ℚ) : DecidableRel (keyRel l) := by
  intro i j
  unfold keyRel
  infer_instance

instance keyRel.isTotal (l : List ℚ) : IsTotal Nat (keyRel l) := by
  constructor
  intro i j
  rcases lt_trichotomy (l.getD i 0) (l.getD j 0) with h | h | h
  · exact Or.inl (Or.inl h)
  · rcases Nat.le_total i j with h' | h'
    · exact Or.inl (Or.inr ⟨h, h'⟩)
    · exact Or.inr (Or.inr ⟨h.symm, h'⟩)
  · exact Or.inr (Or.inl h)

instance keyRel.isTrans (l : List ℚ) : IsTrans Nat (keyRel l) := by
  constructor
  intro a b c hab hbc
  rcases hab with h1 | ⟨h1, h1'⟩ <;> rcases hbc with h2 | ⟨h2, h2'⟩
  · exact Or.inl (h1.trans h2)
  · exact Or.inl (h2 ▸ h1)
  · exact Or.inl (h1 ▸ h2)
  · exact Or.inr ⟨h1.trans h2, h1'.trans h2'⟩

/-- Embedding of np.argsort on a list of rationals: the list of indices
0, ..., n-1 sorted by value (ascending), ties broken by index. -/
def argsort (l : List ℚ) : List Nat :=
  List.insertionSort (keyRel l) (List.range l.length)

theorem argsort_perm (l : List ℚ) : (argsort l).Perm (List.range l.length) :=
  List.perm_insertionSort _ _

theorem argsort_length (l : List ℚ) : (argsort l).length = l.length := by
  simpa using (argsort_perm l).length_eq

theorem argsort_pairwise (l : List ℚ) :
    (argsort l).Pairwise (fun i j => l.getD i 0 ≤ l.getD j 0) := by
  refine (List.sorted_insertionSort (keyRel l) (List.range l.length)).imp ?_
  intro i j h
  rcases h with h | ⟨h, _⟩
  · exact le_of_lt h
  · exact le_of_eq h

/-! ### Embedding of BeamSearchTree (src/search/methods/tree_search/beam_search.py)

The tree state consists of the retained levels (nodes, node_rewards,
parent_idx) and the shadow record of generated-but-not-kept successors.
Policy and reward function are passed as parameters to the step
(they are plain attributes of the Python object); the in-place shuffle of
random.shuffle is made explicit as a family of index lists, one per
expanded node.  Timers are omitted (wall-clock I/O).
-/

structure BeamTree (N : Type _) where
  numGenerate : Nat
  numKeep : Nat
  nodes : List (List N)
  nodeRewards : List (List ℚ)
  parentIdx : List (List ℤ)
  generatedNodes : List (List N)
  generatedNodeRewards : List (List ℚ)
  generatedParentIdx : List (List ℤ)
  deriving Repr

/-- Embedding of BeamSearchTree.__init__: seed level 0 with the single
input state, reward 0 and the parent sentinel -1. -/
def initTree {N : Type _} (numGenerate numKeep : Nat) (data : N) : BeamTree N :=
  { numGenerate := numGenerate
    numKeep := numKeep
    nodes := [[data]]
    parentIdx := [[-1]]
    nodeRewards := [[0]]
    generatedNodes := [[]]
    generatedNodeRewards := [[]]
    generatedParentIdx := [[]]
  }

/-- Embedding of BeamSearchTree.expand_node.  getActions stands for
policy.get_actions; shuffleIdx is the index permutation random.shuffle
produced (the source shuffles priors and actions jointly by it); out-of-range
accesses use defaults (0, identity action) and are unreachable when
shuffleIdx is a permutation of the index range. -/
def expandNode {N : Type _} (getActions : N → List (N → N) × List ℚ)
    (shuffleIdx : List Nat) (numGenerate : Nat) (node : N) : List N :=
  let actions := (getActions node).1
  let priors := (getActions node).2
  let priors2 := shuffleIdx.map (fun i => priors.getD i 0)
  let actions2 := shuffleIdx.map (fun i => actions.getD i id)
  let actionIdxs := negTail (argsort priors2) numGenerate
  actionIdxs.filterMap (fun i =>
    if 0 < priors2.getD i 0 then some ((actions2.getD i id) node) else none)

/-- The pooled successors of one beam-search step: for each node of the
current level (paired with its index) the nodes produced by expand_node,
concatenated in level order.  Each successor is paired with the index of its
originating node. -/
def pooledSuccessors {N : Type _} (getActions : N → List (N → N) × List ℚ)
    (numGenerate : Nat) (shuffles : Nat → List Nat) (level : List N) :
    List (ℤ × N) :=
  level.enum.flatMap (fun p =>
    (expandNode getActions (shuffles p.1) numGenerate p.2).map
      (fun m => ((p.1 : ℤ), m)))

/-- The pooled successors of the step currently applied to tree T (the last
level of T is the current level, nodes[-1] in the source). -/
def stepPooled {N : Type _} (getActions : N → List (N → N) × List ℚ)
    (shuffles : Nat → List Nat) (T : BeamTree N) : List (ℤ × N) :=
  pooledSuccessors getActions T.numGenerate shuffles (T.nodes.getLastD [])

/-- The pooled successor states of the current step (successor_nodes). -/
def stepNodes {N : Type _} (getActions : N → List (N → N) × List ℚ)
    (shuffles : Nat → List Nat) (T : BeamTree N) : List N :=
  (stepPooled getActions shuffles T).map Prod.snd

/-- The rewards of the pooled successors (successor_rewards): the reward
function evaluated on each successor, in pooling order. -/
def stepRewards {N : Type _} (getActions : N → List (N → N) × List ℚ)
    (rewardFn : N → ℚ) (shuffles : Nat → List Nat) (T : BeamTree N) : List ℚ :=
  (stepPooled getActions shuffles T).map (fun p => rewardFn p.2)

/-- The parent indices of the pooled successors (parent_idx accumulator). -/
def stepParents {N : Type _} (getActions : N → List (N → N) × List ℚ)
    (shuffles : Nat → List Nat) (T : BeamTree N) : List ℤ :=
  (stepPooled getActions shuffles T).map Prod.fst

/-- Embedding of BeamSearchTree.simulation_policy: expand every node of the
last level, pool the successors, score them with the reward function, keep
the top num_keep by reward (numpy argsort ascending, slice [-num_keep:]) as
the new level and record the rest in the generated_* structures. -/
def simulationPolicy {N : Type _} [Inhabited N]
    (getActions : N → List (N → N) × List ℚ) (rewardFn : N → ℚ)
    (shuffles : Nat → List Nat) (T : BeamTree N) : BeamTree N :=
  let succNodes := stepNodes getActions shuffles T
  let succRewards := stepRewards getActions rewardFn shuffles T
  let parents := stepParents getActions shuffles T
  let selIdx := negTail (argsort succRewards) T.numKeep
  let genIdx := negInit (argsort succRewards) T.numKeep
  { T with
    nodes := T.nodes ++ [selIdx.map (fun i => succNodes.getD i default)]
    nodeRewards := T.nodeRewards ++ [selIdx.map (fun i => succRewards.getD i 0)]
    parentIdx := T.parentIdx ++ [selIdx.map (fun i => parents.getD i 0)]
    generatedNodes :=
      T.generatedNodes ++ [genIdx.map (fun i => succNodes.getD i default)]
    generatedNodeRewards :=
      T.generatedNodeRewards ++ [genIdx.map (fun i => succRewards.getD i 0)]
    generatedParentIdx :=
      T.generatedParentIdx ++ [genIdx.map (fun i => parents.getD i 0)] }

/-! ### Supporting lemmas for the beam-search theorems -/

theorem getD_concat {α : Type _} (l : List α) (x d : α) (n : Nat) :
    (l ++ [x]).getD n d =
      if n < l.length then l.getD n d else if n = l.length then x else d := by
  rcases Nat.lt_trichotomy n l.length with h | h | h
  · rw [if_pos h, List.getD_append _ _ _ _ h]
  · subst h
    simp [List.getD_eq_getElem?_getD, List.getElem?_append_right (le_refl _)]
  · rw [if_neg (by omega), if_neg (by omega)]
    apply List.getD_eq_default
    simp only [List.length_append, List.length_singleton]
    omega

theorem getD_nonpos (l : List ℚ) (h : ∀ p ∈ l, p ≤ 0) (i : Nat) :
    l.getD i 0 ≤ 0 := by
  rcases Nat.lt_or_ge i l.length with hi | hi
  · rw [List.getD_eq_getElem l 0 hi]
    exact h _ (List.getElem_mem hi)
  · rw [List.getD_eq_default l 0 hi]

/-- Every pooled successor's parent index is a valid index into the expanded
level. -/
theorem stepPooled_parent_bound {N : Type _}
    (getActions : N → List (N → N) × List ℚ) (numGenerate : Nat)
    (shuffles : Nat → List Nat) (level : List N) :
    ∀ q ∈ pooledSuccessors getActions numGenerate shuffles level,
      0 ≤ q.1 ∧ q.1 < (level.length : ℤ) := by
  intro q hq
  simp only [pooledSuccessors, List.mem_flatMap, List.mem_map] at hq
  obtain ⟨p, hp, m, _, rfl⟩ := hq
  have hlt : p.1 < level.length := (List.mem_enum (by simpa using hp)).1
  exact ⟨Int.natCast_nonneg _, by simpa using (Int.ofNat_lt.mpr hlt)⟩

theorem sel_append_gen_perm (r : List ℚ) (k : Nat) (hk : k ≠ 0) :
    (negTail (argsort r) k ++ negInit (argsort r) k).Perm
      (List.range r.length) := by
  refine List.Perm.trans List.perm_append_comm ?_
  rw [negInit_append_negTail _ _ hk]
  exact argsort_perm r

theorem gen_le_sel (r : List ℚ) (k : Nat) (hk : k ≠ 0) :
    ∀ i ∈ negInit (argsort r) k, ∀ j ∈ negTail (argsort r) k,
      r.getD i 0 ≤ r.getD j 0 := by
  have h := argsort_pairwise r
  rw [← negInit_append_negTail (argsort r) k hk, List.pairwise_append] at h
  exact h.2.2

/-! ### Claim C1 -/

/-- The property claimed of one beam-search step: there are index lists
selIdx and genIdx into the pooled successors such that (i) the step appends
exactly the selIdx-selection of the pooled successors to nodes, with
node_rewards and parent_idx aligned by the same indices, (ii) the genIdx
remainder is recorded in the generated_* structures, likewise aligned,
(iii) selIdx and genIdx together partition all pooled successors,
(iv) num_keep successors are retained (all of them if fewer exist), and
(v) every retained successor's reward is at least every discarded one's. -/
def keepsTopRewards {N : Type _} [Inhabited N]
    (getActions : N → List (N → N) × List ℚ) (rewardFn : N → ℚ)
    (shuffles : Nat → List Nat) (T : BeamTree N) : Prop :=
  ∃ selIdx genIdx : List Nat,
    (simulationPolicy getActions rewardFn shuffles T).nodes =
      T.nodes ++
        [selIdx.map (fun i => (stepNodes getActions shuffles T).getD i default)] ∧
    (simulationPolicy getActions rewardFn shuffles T).nodeRewards =
      T.nodeRewards ++
        [selIdx.map
          (fun i => (stepRewards getActions rewardFn shuffles T).getD i 0)] ∧
    (simulationPolicy getActions rewardFn shuffles T).parentIdx =
      T.parentIdx ++
        [selIdx.map (fun i => (stepParents getActions shuffles T).getD i 0)] ∧
    (simulationPolicy getActions rewardFn shuffles T).generatedNodes =
      T.generatedNodes ++
        [genIdx.map (fun i => (stepNodes getActions shuffles T).getD i default)] ∧
    (simulationPolicy getActions rewardFn shuffles T).generatedNodeRewards =
      T.generatedNodeRewards ++
        [genIdx.map
          (fun i => (stepRewards getActions rewardFn shuffles T).getD i 0)] ∧
    (simulationPolicy getActions rewardFn shuffles T).generatedParentIdx =
      T.generatedParentIdx ++
        [genIdx.map (fun i => (stepParents getActions shuffles T).getD i 0)] ∧
    (selIdx ++ genIdx).Perm
      (List.range (stepPooled getActions shuffles T).length) ∧
    selIdx.length = min T.numKeep (stepPooled getActions shuffles T).length ∧
    (∀ i ∈ genIdx, ∀ j ∈ selIdx,
      (stepRewards getActions rewardFn shuffles T).getD i 0 ≤
        (stepRewards getActions rewardFn shuffles T).getD j 0)

/-- C1: after pooling the successors generated from all nodes of the current
last level, the new retained level appended to nodes consists exactly of the
num_keep pooled successors with the highest rewards (all of them if fewer
than num_keep exist), with node_rewards and parent_idx aligned to the
retained successors, and every pooled successor not retained is recorded in
the generated_nodes/generated_node_rewards/generated_parent_idx structures
for that step. -/
theorem C1_beam_step_keeps_top_rewards {N : Type _} [Inhabited N]
    (getActions : N → List (N → N) × List ℚ) (rewardFn : N → ℚ)
    (shuffles : Nat → List Nat) (T : BeamTree N) (hk : 0 < T.numKeep) :
    keepsTopRewards getActions rewardFn shuffles T := by
  have hk' : T.numKeep ≠ 0 := Nat.pos_iff_ne_zero.mp hk
  refine ⟨negTail (argsort (stepRewards getActions rewardFn shuffles T)) T.numKeep,
    negInit (argsort (stepRewards getActions rewardFn shuffles T)) T.numKeep,
    rfl, rfl, rfl, rfl, rfl, rfl, ?_, ?_, ?_⟩
  · have h := sel_append_gen_perm (stepRewards getActions rewardFn shuffles T)
      T.numKeep hk'
    simpa [stepRewards, List.length_map] using h
  · rw [length_negTail _ _ hk', argsort_length, stepRewards, List.length_map]
  · exact fun i hi j hj =>
      gen_le_sel (stepRewards getActions rewardFn shuffles T) T.numKeep hk' i hi j hj

/-- Concrete policy for witnesses: two actions with positive priors. -/
def exGetActions : Nat → List (Nat → Nat) × List ℚ :=
  fun _ => ([fun x => x + 1, fun x => x + 2], [1/2, 1/4])

/-- Concrete reward function for witnesses. -/
def exRewardFn : Nat → ℚ := fun n => (n : ℚ)

/-- Concrete shuffle choice for witnesses (identity permutation). -/
def exShuffles : Nat → List Nat := fun _ => [0, 1]

/-- Concrete tree for witnesses: root 5, num_generate 4, num_keep 2. -/
def exTree : BeamTree Nat := initTree 4 2 5

/-- Witness for C1 at a concrete tree and policy. -/
theorem C1_beam_step_keeps_top_rewards_witness :
    0 < exTree.numKeep ∧ keepsTopRewards exGetActions exRewardFn exShuffles exTree :=
  ⟨by decide, C1_beam_step_keeps_top_rewards exGetActions exRewardFn exShuffles exTree (by decide)⟩

/-! ### Claim C3 -/

/-- Trees reachable from construction by any sequence of simulation_policy
steps with any policy, reward function and shuffle randomness. -/
inductive Reachable {N : Type _} [Inhabited N] : BeamTree N → Prop where
  | init (numGenerate numKeep : Nat) (data : N) :
      Reachable (initTree numGenerate numKeep data)
  | step (getActions : N → List (N → N) × List ℚ) (rewardFn : N → ℚ)
      (shuffles : Nat → List Nat) (T : BeamTree N) :
      Reachable T → Reachable (simulationPolicy getActions rewardFn shuffles T)

/-- The level-shape invariant of the claim: the per-level triples are equally
long at every level, the root parent record is the sentinel [-1], and every
parent index of a level L > 0 is a valid index into level L-1.  Out-of-range
levels are read as [] (getD), for which the conditions hold trivially. -/
def TreeInv {N : Type _} (T : BeamTree N) : Prop :=
  0 < T.nodes.length ∧
  T.nodeRewards.length = T.nodes.length ∧
  T.parentIdx.length = T.nodes.length ∧
  (∀ L, (T.nodeRewards.getD L []).length = (T.nodes.getD L []).length ∧
    (T.parentIdx.getD L []).length = (T.nodes.getD L []).length) ∧
  T.parentIdx.getD 0 [] = [-1] ∧
  (∀ L, 0 < L → ∀ i < (T.parentIdx.getD L []).length,
    0 ≤ (T.parentIdx.getD L []).getD i 0 ∧
      (T.parentIdx.getD L []).getD i 0 < ((T.nodes.getD (L - 1) []).length : ℤ))

theorem stepParents_getD_bound {N : Type _}
    (getActions : N → List (N → N) × List ℚ) (shuffles : Nat → List Nat)
    (T : BeamTree N) (i : Nat)
    (hi : i < (stepPooled getActions shuffles T).length) :
    0 ≤ (stepParents getActions shuffles T).getD i 0 ∧
      (stepParents getActions shuffles T).getD i 0 <
        ((T.nodes.getLastD []).length : ℤ) := by
  have hlen : i < (stepParents getActions shuffles T).length := by
    simpa [stepParents, List.length_map] using hi
  have hmem : (stepParents getActions shuffles T).getD i 0 ∈
      stepParents getActions shuffles T := by
    rw [List.getD_eq_getElem _ _ hlen]
    exact List.getElem_mem hlen
  rw [stepParents] at hmem
  obtain ⟨q, hq, hv⟩ := List.mem_map.mp hmem
  rw [stepParents, ← hv]
  exact stepPooled_parent_bound getActions T.numGenerate shuffles _ q hq

/-- Indices selected or discarded by a step are valid indices into the
pooled successors. -/
theorem sel_mem_lt {N : Type _} (getActions : N → List (N → N) × List ℚ)
    (rewardFn : N → ℚ) (shuffles : Nat → List Nat) (T : BeamTree N)
    (i : Nat)
    (hi : i ∈ negTail (argsort (stepRewards getActions rewardFn shuffles T))
      T.numKeep) :
    i < (stepPooled getActions shuffles T).length := by
  have hmem : i ∈ argsort (stepRewards getActions rewardFn shuffles T) := by
    unfold negTail at hi
    split at hi
    · exact hi
    · exact (List.drop_sublist _ _).mem hi
  have := ((argsort_perm _).mem_iff).mp hmem
  rw [List.mem_range] at this
  simpa [stepRewards, List.length_map] using this

/-- C3: for every tree reachable from construction by simulation_policy
steps, all per-level triples have equal lengths, the root parent record is
the sentinel [-1], and every parent index at level L > 0 is a valid index
into level L-1. -/
theorem C3_reachable_tree_invariant {N : Type _} [Inhabited N]
    (T : BeamTree N) (h : Reachable T) : TreeInv T := by
  induction h with
  | init numGenerate numKeep data =>
    refine ⟨by simp [initTree], by simp [initTree], by simp [initTree], ?_, rfl, ?_⟩
    · intro L
      cases L with
      | zero => simp [initTree]
      | succ L => simp [initTree]
    · intro L hL i hi
      rcases L with _ | L
      · omega
      · simp [initTree] at hi
  | step getActions rewardFn shuffles T _ ih =>
    obtain ⟨hpos, hlenR, hlenP, hlev, hroot, hparents⟩ := ih
    constructor
    · simp only [simulationPolicy, List.length_append]
      omega
    refine ⟨by simp [simulationPolicy, hlenR], by simp [simulationPolicy, hlenP], ?_, ?_, ?_⟩
    · intro L
      simp only [simulationPolicy]
      rw [getD_concat, getD_concat, getD_concat, hlenR, hlenP]
      split_ifs with h1 h2
      · exact hlev L
      · constructor <;> simp [List.length_map]
      · exact ⟨rfl, rfl⟩
    · simp only [simulationPolicy]
      rw [getD_concat]
      split_ifs with h1 h2
      · exact hroot
      · exact (by omega : False).elim
      · exact (by omega : False).elim
    · intro L hL i hi
      simp only [simulationPolicy] at hi ⊢
      rw [getD_concat, hlenP] at hi
      rw [getD_concat, getD_concat, hlenP]
      split_ifs at hi with h1 h2
      · rw [if_pos h1, if_pos (show L - 1 < T.nodes.length by omega)]
        exact hparents L hL i hi
      · rw [if_neg h1, if_pos h2, if_pos (show L - 1 < T.nodes.length by omega)]
        have hiv : i < (negTail
            (argsort (stepRewards getActions rewardFn shuffles T))
            T.numKeep).length := by
          simpa [List.length_map] using hi
        rw [List.getD_eq_getElem _ _ (by simpa [List.length_map] using hi),
          List.getElem_map]
        have hsel : (negTail
            (argsort (stepRewards getActions rewardFn shuffles T))
            T.numKeep)[i] ∈ negTail
            (argsort (stepRewards getActions rewardFn shuffles T))
            T.numKeep := List.getElem_mem hiv
        have hlt := sel_mem_lt getActions rewardFn shuffles T _ hsel
        have hbound := stepParents_getD_bound getActions shuffles T _ hlt
        have hlast : T.nodes.getLastD [] = T.nodes.getD (L - 1) [] := by
          rw [List.getLastD_eq_getLast?, List.getLast?_eq_getElem?]
          rw [List.getD_eq_getElem?_getD]
          have : T.nodes.length - 1 = L - 1 := by omega
          rw [this]
        rw [hlast] at hbound
        exact hbound
      · simp at hi

/-- Witness for C3: the invariant holds for a concretely constructed tree. -/
theorem C3_reachable_tree_invariant_witness :
    Reachable (initTree 4 2 (5 : Nat)) ∧ TreeInv (initTree 4 2 (5 : Nat)) :=
  ⟨Reachable.init 4 2 5,
    C3_reachable_tree_invariant (initTree 4 2 (5 : Nat)) (Reachable.init 4 2 5)⟩

/-! ### Claim C5 -/

/-- A node none of whose actions has positive prior expands to no
successors: expand_node returns the empty list (the filter on positive
priors rejects every selected action index). -/
theorem expandNode_eq_nil {N : Type _}
    (getActions : N → List (N → N) × List ℚ) (shuffleIdx : List Nat)
    (numGenerate : Nat) (node : N)
    (h : ∀ p ∈ (getActions node).2, p ≤ 0) :
    expandNode getActions shuffleIdx numGenerate node = [] := by
  simp only [expandNode]
  refine List.filterMap_eq_nil_iff.mpr ?_
  intro i _
  have hall : ∀ p ∈ shuffleIdx.map (fun j => (getActions node).2.getD j 0),
      p ≤ 0 := by
    intro p hp
    obtain ⟨j, _, rfl⟩ := List.mem_map.mp hp
    exact getD_nonpos _ h j
  rw [if_neg (not_lt.mpr (getD_nonpos _ hall i))]

/-- If every node of the current level is a dead end, the pooled successor
set of the step is empty. -/
theorem stepPooled_eq_nil {N : Type _}
    (getActions : N → List (N → N) × List ℚ) (shuffles : Nat → List Nat)
    (T : BeamTree N)
    (h : ∀ n ∈ T.nodes.getLastD [], ∀ p ∈ (getActions n).2, p ≤ 0) :
    stepPooled getActions shuffles T = [] := by
  simp only [stepPooled, pooledSuccessors]
  refine List.eq_nil_iff_forall_not_mem.mpr ?_
  intro x hx
  rw [List.mem_flatMap] at hx
  obtain ⟨p, hp, hx⟩ := hx
  obtain ⟨hlt, hval⟩ := List.mem_enum (x := p.2) (i := p.1) (by simpa using hp)
  have hmem : p.2 ∈ T.nodes.getLastD [] := by
    rw [List.getLastD_eq_getLast?]
    exact hval ▸ List.getElem_mem hlt
  rw [expandNode_eq_nil getActions _ _ _ (h p.2 hmem)] at hx
  simp at hx

/-- C5: when the policy yields no action with positive prior for any node of
the current level (in particular when it returns an empty action list), one
call to simulation_policy appends a level of length 0 to nodes, node_rewards
and parent_idx (and to the generated_* records) and the step terminates
normally: the selection path (argsort of an empty reward list, empty
slices) involves no failing operation. -/
theorem C5_dead_end_appends_empty_level {N : Type _} [Inhabited N]
    (getActions : N → List (N → N) × List ℚ) (rewardFn : N → ℚ)
    (shuffles : Nat → List Nat) (T : BeamTree N)
    (h : ∀ n ∈ T.nodes.getLastD [], ∀ p ∈ (getActions n).2, p ≤ 0) :
    simulationPolicy getActions rewardFn shuffles T =
      { T with
        nodes := T.nodes ++ [[]]
        nodeRewards := T.nodeRewards ++ [[]]
        parentIdx := T.parentIdx ++ [[]]
        generatedNodes := T.generatedNodes ++ [[]]
        generatedNodeRewards := T.generatedNodeRewards ++ [[]]
        generatedParentIdx := T.generatedParentIdx ++ [[]] } := by
  have hnil := stepPooled_eq_nil getActions shuffles T h
  simp [simulationPolicy, stepNodes, stepRewards, stepParents, hnil, argsort,
    negTail, negInit]

/-- Concrete policy for the C5 witness: an empty action list everywhere. -/
def exEmptyGetActions : Nat → List (Nat → Nat) × List ℚ := fun _ => ([], [])

/-- Witness for C5 at a concrete tree whose only node gets no actions. -/
theorem C5_dead_end_appends_empty_level_witness :
    (∀ n ∈ (initTree 4 2 (5 : Nat)).nodes.getLastD [],
      ∀ p ∈ (exEmptyGetActions n).2, p ≤ 0) ∧
    simulationPolicy exEmptyGetActions exRewardFn exShuffles
        (initTree 4 2 (5 : Nat)) =
      { initTree 4 2 (5 : Nat) with
        nodes := (initTree 4 2 (5 : Nat)).nodes ++ [[]]
        nodeRewards := (initTree 4 2 (5 : Nat)).nodeRewards ++ [[]]
        parentIdx := (initTree 4 2 (5 : Nat)).parentIdx ++ [[]]
        generatedNodes := (initTree 4 2 (5 : Nat)).generatedNodes ++ [[]]
        generatedNodeRewards :=
          (initTree 4 2 (5 : Nat)).generatedNodeRewards ++ [[]]
        generatedParentIdx :=
          (initTree 4 2 (5 : Nat)).generatedParentIdx ++ [[]] } :=
  ⟨by simp [exEmptyGetActions],
    C5_dead_end_appends_empty_level exEmptyGetActions exRewardFn exShuffles
      (initTree 4 2 (5 : Nat)) (by simp [exEmptyGetActions])⟩

end BeamSearch

namespace LlmQuery

/-! ### Embedding of QueryState and parse_answer (src/llm/query.py)

Python string primitives used by parse_answer are embedded with their
Python semantics: str.find with a (possibly negative) start position
returning -1 when absent, and slicing with negative indices counted from
the end.
-/

/-- The one-character string containing an apostrophe (codepoint 39). -/
def squote : String := ⟨[Char.ofNat 39]⟩

/-- The one-character string containing a double quote (codepoint 34). -/
def dquote : String := ⟨[Char.ofNat 34]⟩

/-- The empty string. -/
def emptyStr : String := ""

/-- Whether the first character list is an initial segment of the second. -/
def charsLead : List Char → List Char → Bool
  | [], _ => true
  | _ :: _, [] => false
  | c :: cs, d :: ds => c = d && charsLead cs ds

/-- Scan for the first occurrence of su in cs at position i or later; the
fuel bounds the scan at the end of cs. -/
def pyFindAux (cs su : List Char) (i fuel : Nat) : Int :=
  match fuel with
  | 0 => -1
  | fuel + 1 =>
    if charsLead su (cs.drop i) then (i : Int) else pyFindAux cs su (i + 1) fuel

/-- Embedding of Python str.find(sub, start): the lowest index at or after
start where sub occurs, -1 when there is none; a negative start counts from
the end of the string and is clamped at 0. -/
def pyFind (s sub : String) (start : Int) : Int :=
  let cs := s.toList
  let su := sub.toList
  let st : Nat := if start < 0 then ((cs.length : Int) + start).toNat
    else start.toNat
  pyFindAux cs su st (cs.length + 1 - st)

/-- Embedding of the Python slice s[a:b] on strings: negative bounds count
from the end; bounds are clamped to the string. -/
def pySlice (s : String) (a b : Int) : String :=
  let cs := s.toList
  let a2 : Nat := (if a < 0 then a + (cs.length : Int) else a).toNat
  let b2 : Nat := (if b < 0 then b + (cs.length : Int) else b).toNat
  ⟨(cs.take b2).drop a2⟩

/-- Embedding of parse_answer: locate "final_answer" case-insensitively,
take the bracketed list that follows, split on commas and strip quotes and
whitespace.  The num_expected parameter is accepted but, as in the source,
never used. -/
def parse_answer (answer : String) (numExpected : Option Nat) : List String :=
  let finalAnswerLocation := pyFind (answer.toLower) ("final_answer") 0
  let listLocation := pyFind answer ("[") finalAnswerLocation
  let answerList :=
    pySlice answer (listLocation + 1) (pyFind answer ("]") listLocation)
  ((answerList.splitOn (",")).map (fun ans => ans.replace squote emptyStr)).map
    (fun ans => (ans.replace dquote emptyStr).trim)

/-- Embedding of the QueryState attribute record (src/llm/query.py). -/
structure QueryState where
  template : String
  reward_template : String
  ads_symbols : List String
  ads_preferences : List ℚ
  catalyst_label : String
  num_answers : Nat
  prev_candidate_list : List String
  relation_to_candidate_list : Option String
  include_list : List String
  exclude_list : List String
  answer : Option String
  num_queries : Nat
  prediction_model : String
  reward_model : String
  deriving Repr, DecidableEq

/-- Embedding of QueryState.__init__ with its parameters in source order;
an absent ads_preferences defaults to a list of ones matching ads_symbols.
List arguments are stored by value (the source copies them). -/
def mkQueryState (template reward_template : String) (ads_symbols : List String)
    (ads_preferences : Option (List ℚ)) (catalyst_label : String)
    (num_answers : Nat) (prev_candidate_list : List String)
    (relation_to_candidate_list : Option String)
    (include_list exclude_list : List String) (answer : Option String)
    (num_queries : Nat) (prediction_model reward_model : String) : QueryState :=
  { template := template
    reward_template := reward_template
    ads_symbols := ads_symbols
    ads_preferences :=
      match ads_preferences with
      | none => List.replicate ads_symbols.length 1
      | some l => l
    catalyst_label := catalyst_label
    num_answers := num_answers
    prev_candidate_list := prev_candidate_list
    relation_to_candidate_list := relation_to_candidate_list
    include_list := include_list
    exclude_list := exclude_list
    answer := answer
    num_queries := num_queries
    prediction_model := prediction_model
    reward_model := reward_model }

/-- Embedding of the QueryState.candidates property: the parse of the
current answer, or the empty list while answer is None. -/
def QueryState.candidates (s : QueryState) : List String :=
  match s.answer with
  | none => []
  | some a => parse_answer a (some s.num_answers)

/-- Embedding of QueryState.return_next.  The source constructs a fresh
QueryState from the current one, passing copies of the list fields,
prev_candidate_list=self.candidates, answer=None and num_queries=0, and
leaving ads_preferences, catalyst_label and num_answers to the constructor
defaults; it performs no assignment to self.  The embedding returns the
successor together with the post-call self (unchanged, as the method body
only reads). -/
def QueryState.return_next (s : QueryState) : QueryState × QueryState :=
  (mkQueryState s.template s.reward_template s.ads_symbols none (" catalysts")
    3 s.candidates s.relation_to_candidate_list s.include_list s.exclude_list
    none 0 s.prediction_model s.reward_model, s)

/-! ### Claim C8 -/

/-- C8: return_next yields a successor whose candidate/context fields are
copies of the current state's — prev_candidate_list equals the current
candidates, and the include/exclude lists, relation phrase, templates,
adsorbate symbols and model names are equal — with answer cleared to None
and the query counter reset to 0, while the original state is left entirely
unchanged. -/
theorem C8_return_next_copies_and_preserves (s : QueryState) :
    (s.return_next).2 = s ∧
    (s.return_next).1.prev_candidate_list = s.candidates ∧
    (s.return_next).1.include_list = s.include_list ∧
    (s.return_next).1.exclude_list = s.exclude_list ∧
    (s.return_next).1.relation_to_candidate_list =
      s.relation_to_candidate_list ∧
    (s.return_next).1.template = s.template ∧
    (s.return_next).1.reward_template = s.reward_template ∧
    (s.return_next).1.ads_symbols = s.ads_symbols ∧
    (s.return_next).1.prediction_model = s.prediction_model ∧
    (s.return_next).1.reward_model = s.reward_model ∧
    (s.return_next).1.answer = none ∧
    (s.return_next).1.num_queries = 0 :=
  ⟨rfl, rfl, rfl, rfl, rfl, rfl, rfl, rfl, rfl, rfl, rfl, rfl⟩

/-! ### Claim C9 -/

/-- C9: the candidates property is a pure function of the answer field
alone — two states with equal answers have equal candidates, whatever their
other fields (in particular num_answers, which parse_answer receives but
ignores) — and candidates is empty while answer is None.  Reading the
property mutates nothing: its embedding is a plain function of the state. -/
theorem C9_candidates_pure_function_of_answer :
    (∀ s1 s2 : QueryState, s1.answer = s2.answer →
      s1.candidates = s2.candidates) ∧
    (∀ s : QueryState, s.answer = none → s.candidates = []) := by
  constructor
  · intro s1 s2 h
    unfold QueryState.candidates
    rw [h]
    cases s2.answer with
    | none => rfl
    | some a => rfl
  · intro s h
    unfold QueryState.candidates
    rw [h]

/-- Concrete state for the C9 witness. -/
def exQState1 : QueryState :=
  mkQueryState ("t") ("rt") [("CO")] none (" catalysts") 3 [] none [] []
    (some ("final_answer: [Ni, Pt]")) 0 ("m1") ("m2")

/-- Concrete state for the C9 witness: same answer as exQState1 but every
other field different. -/
def exQState2 : QueryState :=
  mkQueryState ("u") ("ru") [("H2O"), ("CO2")] (some [2]) (" materials") 7
    [("Cu")] (some ("similar to")) [("cheap")] [("toxic")]
    (some ("final_answer: [Ni, Pt]")) 4 ("m3") ("m4")

/-- Concrete state for the C9 witness: answer not yet set. -/
def exQStateNone : QueryState :=
  mkQueryState ("t") ("rt") [("CO")] none (" catalysts") 3 [] none [] [] none
    0 ("m1") ("m2")

/-- Witness for C9 at concrete states. -/
theorem C9_candidates_pure_function_of_answer_witness :
    exQState1.answer = exQState2.answer ∧
    exQState1.candidates = exQState2.candidates ∧
    exQStateNone.answer = none ∧ exQStateNone.candidates = [] :=
  ⟨rfl, C9_candidates_pure_function_of_answer.1 exQState1 exQState2 rfl, rfl,
    C9_candidates_pure_function_of_answer.2 exQStateNone rfl⟩

end LlmQuery

namespace LlmReward

/-! ### Embedding of llm_adsorption_energy_reward (src/search/reward/llm_reward.py)

The state's query_adsorption_energy_list call performs external LLM I/O and
either returns an aggregated estimate or raises (the method in
src/llm/query.py re-raises after its three internal parse retries); it is
modelled as an oracle giving the outcome of the k-th call.  The reward
function body is embedded exactly; note that it wraps the call in no
try/except, so an exception outcome propagates.
-/

/-- The reward-relevant part of the state mutated by the reward function:
the stored reward and the auxiliary info log. -/
structure LLMState where
  reward : Option ℚ
  infoLog : List (String × ℚ)
  deriving Repr, DecidableEq

/-- Modelled from the spec: ReasonerState.set_reward.  The state class
(search.state.reasoner_state) is missing from src/, only its callers are
present; per the spec's State lifecycle, set_reward sets the reward and
appends to the info mapping.  The primary_reward flag guards the primary
reward slot; the value is appended under the given info field.  The default
info field name of the missing signature is modelled as "reward"; the
claims depend only on the failure being recorded, not on the name. -/
def setReward (v : ℚ) (infoField : String) (primaryReward : Bool)
    (s : LLMState) : LLMState :=
  { reward := if primaryReward then some v else s.reward
    infoLog := s.infoLog ++ [(infoField, v)] }

/-- Embedding of the retry loop (lines 18-22 of llm_reward.py): starting
from e = reward_limit + 1 and attempts = 0, the body runs while
e > reward_limit and attempts < max_attempts, setting e to the next oracle
outcome and incrementing attempts; fuel is max_attempts - attempts, so the
counter condition is fuel > 0.  An exception outcome propagates. -/
def rewardLoop (oracle : Nat → Except Unit ℚ) (rewardLimit : ℚ) (e : ℚ)
    (attempts fuel : Nat) : Except Unit (ℚ × Nat) :=
  match fuel with
  | 0 => .ok (e, attempts)
  | fuel + 1 =>
    if rewardLimit < e then
      match oracle attempts with
      | .error u => .error u
      | .ok v => rewardLoop oracle rewardLimit v (attempts + 1) fuel
    else .ok (e, attempts)

/-- Embedding of llm_adsorption_energy_reward.  After the loop, the source
returns the -10 penalty (recording it via set_reward with the default info
field) whenever attempts == max_attempts; otherwise it stores e under the
"llm-reward" info field — its two branches on primary_reward both amount to
set_reward(e, primary_reward, "llm-reward") since the flag's default is
true — and returns e. -/
def llm_adsorption_energy_reward (oracle : Nat → Except Unit ℚ)
    (s : LLMState) (rewardLimit : ℚ) (maxAttempts : Nat)
    (primaryReward : Bool) : Except Unit (ℚ × LLMState) :=
  match rewardLoop oracle rewardLimit (rewardLimit + 1) 0 maxAttempts with
  | .error u => .error u
  | .ok (e, attempts) =>
    if attempts = maxAttempts then
      .ok (-10, setReward (-10) ("reward") true s)
    else
      .ok (e, setReward e ("llm-reward") primaryReward s)

/-! ### Loop characterization lemmas -/

theorem rewardLoop_all_used (oracle : Nat → Except Unit ℚ) (limit : ℚ) :
    ∀ fuel attempts (e : ℚ), limit < e →
      (∀ i, attempts ≤ i → i < attempts + fuel → ∃ v, oracle i = .ok v) →
      (∀ i, attempts ≤ i → i + 1 < attempts + fuel →
        ∀ v, oracle i = .ok v → limit < v) →
      ∃ e2, rewardLoop oracle limit e attempts fuel = .ok (e2, attempts + fuel) := by
  intro fuel
  induction fuel with
  | zero => intro attempts e _ _ _; exact ⟨e, rfl⟩
  | succ fuel ih =>
    intro attempts e he hok hbig
    obtain ⟨v, hv⟩ := hok attempts (le_refl _) (by omega)
    rw [rewardLoop, if_pos he, hv]
    rcases Nat.eq_zero_or_pos fuel with hf | hf
    · subst hf
      exact ⟨v, by simp [rewardLoop, Nat.add_comm]⟩
    · have hlv : limit < v := hbig attempts (le_refl _) (by omega) v hv
      obtain ⟨e2, h2⟩ := ih (attempts + 1) v hlv
        (fun i h1 h2 => hok i (by omega) (by omega))
        (fun i h1 h2 => hbig i (by omega) (by omega))
      have heq : attempts + 1 + fuel = attempts + (fuel + 1) := by omega
      rw [heq] at h2
      exact ⟨e2, h2⟩

theorem rewardLoop_early_success (oracle : Nat → Except Unit ℚ) (limit : ℚ)
    (k : Nat) (v : ℚ) (hv : v ≤ limit) (hok : oracle k = .ok v) :
    ∀ fuel attempts (e : ℚ), limit < e → attempts ≤ k →
      k + 1 < attempts + fuel →
      (∀ i, attempts ≤ i → i < k → ∃ w, oracle i = .ok w ∧ limit < w) →
      rewardLoop oracle limit e attempts fuel = .ok (v, k + 1) := by
  intro fuel
  induction fuel with
  | zero => intro attempts e _ hk hkf _; omega
  | succ fuel ih =>
    intro attempts e he hk hkf hbefore
    rw [rewardLoop, if_pos he]
    rcases Nat.lt_or_ge attempts k with hak | hak
    · obtain ⟨w, hw, hlw⟩ := hbefore attempts (le_refl _) hak
      rw [hw]
      exact ih (attempts + 1) w hlw (by omega) (by omega)
        (fun i h1 h2 => hbefore i (by omega) h2)
    · have : attempts = k := by omega
      subst this
      rw [hok]
      obtain ⟨fuel2, rfl⟩ := Nat.exists_eq_succ_of_ne_zero (by omega : fuel ≠ 0)
      show rewardLoop oracle limit v (attempts + 1) (fuel2 + 1) =
        Except.ok (v, attempts + 1)
      rw [rewardLoop, if_neg (not_lt.mpr hv)]

theorem rewardLoop_raises (oracle : Nat → Except Unit ℚ) (limit : ℚ)
    (k : Nat) (hok : oracle k = .error ()) :
    ∀ fuel attempts (e : ℚ), limit < e → attempts ≤ k →
      k < attempts + fuel →
      (∀ i, attempts ≤ i → i < k → ∃ w, oracle i = .ok w ∧ limit < w) →
      rewardLoop oracle limit e attempts fuel = .error () := by
  intro fuel
  induction fuel with
  | zero => intro attempts e _ hk hkf _; omega
  | succ fuel ih =>
    intro attempts e he hk hkf hbefore
    rw [rewardLoop, if_pos he]
    rcases Nat.lt_or_ge attempts k with hak | hak
    · obtain ⟨w, hw, hlw⟩ := hbefore attempts (le_refl _) hak
      rw [hw]
      exact ih (attempts + 1) w hlw (by omega) (by omega)
        (fun i h1 h2 => hbefore i (by omega) h2)
    · have : attempts = k := by omega
      subst this
      rw [hok]

/-! ### Claim C2 -/

/-- Initial state for the C2 theorems. -/
def exLLMState0 : LLMState := ⟨none, []⟩

/-- Oracle returning an acceptable value on every call. -/
def exOracleOk5 : Nat → Except Unit ℚ := fun _ => .ok 5

/-- Oracle raising on every call. -/
def exOracleRaise : Nat → Except Unit ℚ := fun _ => .error ()

/-- Counterexample to C2 as stated.  First conjunct: with max_attempts = 1
and an evaluation that returns the acceptable value 5 (within
reward_limit = 10) on its only attempt, the code still returns the -10
penalty — so the penalty is not returned "exactly when the attempts are
exhausted without an acceptable value", and the acceptable aggregated value
is not returned.  Second conjunct: an evaluation that raises on every
attempt propagates the exception instead of yielding the penalty value. -/
theorem C2_counterexample_penalty_and_raise :
    (llm_adsorption_energy_reward exOracleOk5 exLLMState0 10 1 true =
        .ok (-10, setReward (-10) ("reward") true exLLMState0) ∧
      exOracleOk5 0 = .ok 5 ∧ (5 : ℚ) ≤ 10 ∧ (-10 : ℚ) ≠ 5) ∧
    llm_adsorption_energy_reward exOracleRaise exLLMState0 10 3 true =
      .error () := by
  refine ⟨⟨?_, rfl, by norm_num, by norm_num⟩, ?_⟩
  · obtain ⟨e2, h2⟩ := rewardLoop_all_used exOracleOk5 10 1 0 (10 + 1)
      (lt_add_one _) (fun i _ _ => ⟨5, rfl⟩)
      (fun i _ hi _ _ => absurd hi (by omega))
    rw [Nat.zero_add] at h2
    rw [llm_adsorption_energy_reward, h2]
    show (if 1 = 1 then
        Except.ok ((-10 : ℚ), setReward (-10) ("reward") true exLLMState0)
      else Except.ok (e2, setReward e2 ("llm-reward") true exLLMState0)) =
      Except.ok ((-10 : ℚ), setReward (-10) ("reward") true exLLMState0)
    rw [if_pos rfl]
  · have h2 := rewardLoop_raises exOracleRaise 10 0 rfl 3 0 (10 + 1)
      (lt_add_one _) (le_refl _) (by omega)
      (fun i h1 h2 => absurd h2 (by omega))
    rw [llm_adsorption_energy_reward, h2]

/-- C2 (amended): the evaluation is attempted up to max_attempts times
while the aggregated value exceeds reward_limit.  (1) Whenever all
max_attempts attempts complete without raising and no attempt before the
last returned an acceptable value, the function returns the fixed penalty
-10 and records it in the state's info — even if the final attempt's value
was acceptable.  (2) An acceptable aggregated value obtained before the
final attempt is returned and stored as the state's reward.  (3) An
evaluation that raises on an attempt the loop reaches propagates the
exception rather than yielding the penalty value. -/
theorem C2_amended_retry_semantics (oracle : Nat → Except Unit ℚ)
    (s : LLMState) (rewardLimit : ℚ) (maxAttempts : Nat)
    (primaryReward : Bool) :
    ((∀ i, i < maxAttempts → ∃ v, oracle i = .ok v) →
      (∀ i, i + 1 < maxAttempts → ∀ v, oracle i = .ok v → rewardLimit < v) →
      llm_adsorption_energy_reward oracle s rewardLimit maxAttempts
          primaryReward =
        .ok (-10, setReward (-10) ("reward") true s)) ∧
    (∀ k (v : ℚ), k + 1 < maxAttempts → oracle k = .ok v →
      v ≤ rewardLimit →
      (∀ i, i < k → ∃ w, oracle i = .ok w ∧ rewardLimit < w) →
      llm_adsorption_energy_reward oracle s rewardLimit maxAttempts
          primaryReward =
        .ok (v, setReward v ("llm-reward") primaryReward s)) ∧
    (∀ k, k < maxAttempts → oracle k = .error () →
      (∀ i, i < k → ∃ w, oracle i = .ok w ∧ rewardLimit < w) →
      llm_adsorption_energy_reward oracle s rewardLimit maxAttempts
          primaryReward = .error ()) := by
  refine ⟨?_, ?_, ?_⟩
  · intro hok hbig
    obtain ⟨e2, h2⟩ := rewardLoop_all_used oracle rewardLimit maxAttempts 0
      (rewardLimit + 1) (lt_add_one _)
      (fun i h1 h2 => hok i (by omega))
      (fun i h1 h2 => hbig i (by omega))
    rw [llm_adsorption_energy_reward, h2]
    simp
  · intro k v hkf hok hv hbefore
    rw [llm_adsorption_energy_reward,
      rewardLoop_early_success oracle rewardLimit k v hv hok maxAttempts 0
        (rewardLimit + 1) (lt_add_one _) (Nat.zero_le _) (by omega)
        (fun i h1 h2 => hbefore i h2)]
    show (if k + 1 = maxAttempts then
        Except.ok ((-10 : ℚ), setReward (-10) ("reward") true s)
      else Except.ok (v, setReward v ("llm-reward") primaryReward s)) =
      Except.ok (v, setReward v ("llm-reward") primaryReward s)
    rw [if_neg (show ¬k + 1 = maxAttempts by omega)]
  · intro k hk hok hbefore
    rw [llm_adsorption_energy_reward,
      rewardLoop_raises oracle rewardLimit k hok maxAttempts 0
        (rewardLimit + 1) (lt_add_one _) (Nat.zero_le _) (by omega)
        (fun i h1 h2 => hbefore i h2)]

/-- Oracle returning an excessive value on every call. -/
def exOracleBig : Nat → Except Unit ℚ := fun _ => .ok 20

/-- Oracle returning an excessive value first, then an acceptable one. -/
def exOracleLate : Nat → Except Unit ℚ :=
  fun i => if i = 0 then .ok 20 else .ok 5

/-- Oracle returning an excessive value first, then raising. -/
def exOracleLateRaise : Nat → Except Unit ℚ :=
  fun i => if i = 0 then .ok 20 else .error ()

/-- Witness for the amended C2 at concrete oracles: penalty after two
excessive values, an acceptable value on attempt 1 of 3 returned and
stored, and a raise on attempt 1 of 3 propagated. -/
theorem C2_amended_retry_semantics_witness :
    llm_adsorption_energy_reward exOracleBig exLLMState0 10 2 true =
        .ok (-10, setReward (-10) ("reward") true exLLMState0) ∧
    llm_adsorption_energy_reward exOracleLate exLLMState0 10 3 true =
        .ok (5, setReward 5 ("llm-reward") true exLLMState0) ∧
    llm_adsorption_energy_reward exOracleLateRaise exLLMState0 10 3 true =
      .error () := by
  refine ⟨?_, ?_, ?_⟩
  · exact (C2_amended_retry_semantics exOracleBig exLLMState0 10 2 true).1
      (fun i _ => ⟨20, rfl⟩)
      (fun i _ v hv => by
        simp only [exOracleBig, Except.ok.injEq] at hv
        rw [← hv]; norm_num)
  · exact (C2_amended_retry_semantics exOracleLate exLLMState0 10 3 true).2.1
      1 5 (by norm_num) rfl (by norm_num)
      (fun i hi => ⟨20, by
        have : i = 0 := by omega
        subst this
        exact ⟨rfl, by norm_num⟩⟩)
  · exact (C2_amended_retry_semantics exOracleLateRaise exLLMState0 10 3
        true).2.2 1 (by norm_num) rfl
      (fun i hi => ⟨20, by
        have : i = 0 := by omega
        subst this
        exact ⟨rfl, by norm_num⟩⟩)

end LlmReward

/-- Update-or-append on an insertion-ordered association list (the embedding
of Python dict assignment d[k] = v: an existing key keeps its position, a
new key is appended at the end). -/
def alistSet {α : Type _} (d : List (String × α)) (k : String) (v : α) :
    List (String × α) :=
  match d with
  | [] => [(k, v)]
  | (k2, v2) :: rest =>
    if k2 = k then (k2, v) :: rest else (k2, v2) :: alistSet rest k v

theorem alistSet_lookup_self {α : Type _} (d : List (String × α)) (k : String)
    (v : α) : List.lookup k (alistSet d k v) = some v := by
  induction d with
  | nil => simp [alistSet, List.lookup]
  | cons h t ih =>
    obtain ⟨k2, v2⟩ := h
    by_cases hk : k2 = k
    · simp [alistSet, hk, List.lookup]
    · have hbe : (k == k2) = false := by simpa using Ne.symm hk
      simp [alistSet, if_neg hk, List.lookup, hbe, ih]

theorem alistSet_lookup_other {α : Type _} (d : List (String × α))
    (k k2 : String) (v : α) (h : k ≠ k2) :
    List.lookup k (alistSet d k2 v) = List.lookup k d := by
  induction d with
  | nil =>
    have hbe : (k == k2) = false := by simpa using h
    simp [alistSet, List.lookup, hbe]
  | cons hd t ih =>
    obtain ⟨k3, v3⟩ := hd
    by_cases hk : k3 = k2
    · subst hk
      have hbe : (k == k3) = false := by simpa using h
      simp [alistSet, List.lookup, hbe]
    · simp only [alistSet, if_neg hk, List.lookup]
      cases hbe : (k == k3) <;> simp [hbe, ih]

namespace Resume

/-! ### Embedding of the resume branch of src/scripts/run_icml_queries.py

When the target file exists and is non-empty, the driver loads the
serialized tree document, reconstructs a BeamSearchTree through from_data
and asserts that the requested num_keep/num_generate equal the
checkpoint's, raising AssertionError("mismatch parameter") otherwise —
before the search loop runs any step.
-/

/-- The persisted tree document (spec section 6): the level structures plus
the configuration keys num_generate and num_keep (JSON integers). -/
structure SavedTreeData (σ : Type _) where
  nodes : List (List σ)
  nodeRewards : List (List ℚ)
  parentIdx : List (List ℤ)
  generatedNodes : List (List σ)
  generatedNodeRewards : List (List ℚ)
  generatedParentIdx : List (List ℤ)
  numGenerate : ℤ
  numKeep : ℤ

/-- A reconstructed search object as the driver sees it. -/
structure ResumedSearch (σ : Type _) where
  numGenerate : ℤ
  numKeep : ℤ
  nodes : List (List σ)
  nodeRewards : List (List ℚ)
  parentIdx : List (List ℤ)
  generatedNodes : List (List σ)
  generatedNodeRewards : List (List ℚ)
  generatedParentIdx : List (List ℤ)

/-- Modelled from the spec: BeamSearchTree.from_data is called by the
driver but is not present under src/.  Per the spec's resumption contract
and persisted-format description, it rebuilds the tree from the serialized
document, taking the level structures and the num_generate/num_keep
configuration from the document's keys. -/
def fromData {σ : Type _} (d : SavedTreeData σ) : ResumedSearch σ :=
  { numGenerate := d.numGenerate
    numKeep := d.numKeep
    nodes := d.nodes
    nodeRewards := d.nodeRewards
    parentIdx := d.parentIdx
    generatedNodes := d.generatedNodes
    generatedNodeRewards := d.generatedNodeRewards
    generatedParentIdx := d.generatedParentIdx }

/-- Embedding of the resume branch (run_icml_queries.py lines 226-240):
reconstruct the search from the loaded document, then assert that the
requested num_keep and num_generate equal the reconstructed tree's,
failing with AssertionError("mismatch parameter") otherwise.  The
isinstance(..., int) parts of the asserts hold by the argument types. -/
def resumeChecked {σ : Type _} (argsNumKeep argsNumGenerate : ℤ)
    (d : SavedTreeData σ) : Except String (ResumedSearch σ) :=
  let search := fromData d
  if argsNumKeep = search.numKeep then
    if argsNumGenerate = search.numGenerate then .ok search
    else .error ("mismatch parameter")
  else .error ("mismatch parameter")

/-- Embedding of the driver's search loop: while the tree has fewer levels
than the requested depth, take one step; returns the final search object
and the number of steps executed.  The fuel argument bounds the iteration
(each step appends one level, so depth is enough fuel). -/
def searchLoop {σ : Type _} (stepFn : ResumedSearch σ → ResumedSearch σ)
    (depth : Nat) : Nat → ResumedSearch σ → ResumedSearch σ × Nat
  | 0, s => (s, 0)
  | fuel + 1, s =>
    if s.nodes.length < depth then
      let r := searchLoop stepFn depth fuel (stepFn s)
      (r.1, r.2 + 1)
    else (s, 0)

/-- Embedding of the driver's resume path followed by the search loop: the
configuration check runs strictly before any step. -/
def resumeMain {σ : Type _} (argsNumKeep argsNumGenerate : ℤ) (depth : Nat)
    (stepFn : ResumedSearch σ → ResumedSearch σ) (d : SavedTreeData σ) :
    Except String (ResumedSearch σ × Nat) :=
  match resumeChecked argsNumKeep argsNumGenerate d with
  | .error e => .error e
  | .ok search => .ok (searchLoop stepFn depth depth search)

/-! ### Claim C4 -/

/-- C4: a mismatch between the checkpoint's num_keep/num_generate and the
requested configuration is a fatal configuration error raised immediately:
the resumed run fails with the AssertionError before the loop runs, for
every possible step function — no step is ever executed and the mismatch is
never silently ignored. -/
theorem C4_resume_mismatch_fatal {σ : Type _}
    (argsNumKeep argsNumGenerate : ℤ) (depth : Nat) (d : SavedTreeData σ)
    (h : argsNumKeep ≠ d.numKeep ∨ argsNumGenerate ≠ d.numGenerate) :
    ∀ stepFn, resumeMain argsNumKeep argsNumGenerate depth stepFn d =
      .error ("mismatch parameter") := by
  intro stepFn
  by_cases hk : argsNumKeep = d.numKeep
  · rcases h with h | h
    · exact absurd hk h
    · simp only [resumeMain, resumeChecked, fromData]
      rw [if_pos hk, if_neg h]
  · simp only [resumeMain, resumeChecked, fromData]
    rw [if_neg hk]

/-- Concrete checkpoint document for the C4 witness. -/
def exSaved : SavedTreeData Nat :=
  { nodes := [[0]]
    nodeRewards := [[0]]
    parentIdx := [[-1]]
    generatedNodes := [[]]
    generatedNodeRewards := [[]]
    generatedParentIdx := [[]]
    numGenerate := 3
    numKeep := 2 }

/-- Witness for C4: resuming a checkpoint with num_keep 2 under a requested
num_keep 3 fails immediately. -/
theorem C4_resume_mismatch_fatal_witness :
    ((3 : ℤ) ≠ exSaved.numKeep ∨ (3 : ℤ) ≠ exSaved.numGenerate) ∧
    resumeMain 3 3 5 (fun s => s) exSaved = .error ("mismatch parameter") :=
  ⟨Or.inl (by decide),
    C4_resume_mismatch_fatal 3 3 5 exSaved (Or.inl (by decide)) (fun s => s)⟩

end Resume

namespace SimReward

/-! ### Embedding of the aggregation of StructureReward.__call__
(src/search/reward/simulation_reward.py, lines 73-102)

The upstream structure generation and relaxation are external; their
outcome is the list adslabs_and_energies of (index, name, energy) records,
together with the name_candidate_mapping built during sampling.  The
embedding covers the parsing of those records into the per-candidate
per-adsorbate reward_values dictionary and the final aggregation.  Python
dicts are insertion-ordered association lists.  np.mean of an empty list
(nan) is modelled as Option.none.
-/

/-- Split a character list at a separator character. -/
def splitChars (cs : List Char) (sep : Char) : List (List Char) :=
  match cs with
  | [] => [[]]
  | c :: rest =>
    let r := splitChars rest sep
    if c = sep then [] :: r else (c :: r.headD []) :: r.tail

/-- Embedding of name.split("_")[-1]: the part of the name after the last
underscore (the adsorbate symbol, since names are built as
slab_name + "_" + ads_sym). -/
def adsFromName (name : String) : String :=
  ⟨(splitChars name.toList (Char.ofNat 95)).getLastD []⟩

/-- One record insertion into the reward_values dictionary: append the
energy to reward_values[cand][ads], creating the inner entries in
insertion order as the source's dict assignments do. -/
def rvInsert (rv : List (String × List (String × List ℚ)))
    (cand ads : String) (energy : ℚ) :
    List (String × List (String × List ℚ)) :=
  match List.lookup cand rv with
  | some adsDict =>
    match List.lookup ads adsDict with
    | some es => alistSet rv cand (alistSet adsDict ads (es ++ [energy]))
    | none => alistSet rv cand (alistSet adsDict ads [energy])
  | none => rv ++ [(cand, [(ads, [energy])])]

/-- Embedding of the reward_values parsing loop (lines 74-84): each record's
name selects the candidate through name_candidate_mapping and the adsorbate
as the suffix after the last underscore.  The mapping lookup defaults to ""
for names absent from the mapping (the source would raise KeyError; the
loop only ever receives names that were put into the mapping). -/
def buildRewardValues (mapping : List (String × String))
    (entries : List (String × String × ℚ)) :
    List (String × List (String × List ℚ)) :=
  entries.foldl
    (fun rv e =>
      rvInsert rv ((List.lookup e.2.1 mapping).getD ("")) (adsFromName e.2.1)
        e.2.2)
    []

/-- Minimum of a list of rationals (min() of a nonempty Python list; the
default 0 for [] is unreachable, entries always carry one energy). -/
def listMin : List ℚ → ℚ
  | [] => 0
  | h :: t => t.foldl min h

/-- Arithmetic mean (np.mean of a nonempty list). -/
def listMean (l : List ℚ) : ℚ := l.sum / (l.length : ℚ)

/-- Per-candidate score (lines 90-97): the mean over the candidate's
adsorbate entries of |min energy| ** ads_preferences[i], i enumerating the
dict's keys.  Preferences are modelled as integer exponents; an index
beyond the preference list defaults to 1 (the source would raise
IndexError). -/
def candScore (prefs : List ℤ) (adsDict : List (String × List ℚ)) : ℚ :=
  listMean (adsDict.enum.map (fun p => |listMin p.2.2| ^ prefs.getD p.1 1))

/-- Embedding of the aggregation loop (lines 87-99): candidates present in
reward_values contribute their score; a candidate absent from it — one
with no valid structures — is only printed and contributes nothing. -/
def aggregateScores (candidatesList : List String) (prefs : List ℤ)
    (rv : List (String × List (String × List ℚ))) : List ℚ :=
  candidatesList.filterMap (fun cand =>
    match List.lookup cand rv with
    | some adsDict => some (candScore prefs adsDict)
    | none => none)

/-- Embedding of the reward computed by StructureReward.__call__ from the
relaxation outcomes: np.mean over the per-candidate scores; the empty case
(np.mean([]) = nan, with a RuntimeWarning) is modelled as none. -/
def structureRewardAggregate (candidatesList : List String) (prefs : List ℤ)
    (mapping : List (String × String)) (entries : List (String × String × ℚ)) :
    Option ℚ :=
  let rv := buildRewardValues mapping entries
  let rewards := aggregateScores candidatesList prefs rv
  if rewards.isEmpty then none else some (listMean rewards)

/-! ### Claim C7 -/

/-- C7 evaluation: a candidate with no valid structures (absent from the
built reward_values) is dropped from the mean instead of contributing a
penalty value: the aggregated reward with the candidate present anywhere in
the candidate list equals the aggregated reward without it. -/
theorem C7_invalid_candidate_silently_dropped (cands1 cands2 : List String)
    (cand : String) (prefs : List ℤ) (mapping : List (String × String))
    (entries : List (String × String × ℚ))
    (h : List.lookup cand (buildRewardValues mapping entries) = none) :
    structureRewardAggregate (cands1 ++ cand :: cands2) prefs mapping entries =
      structureRewardAggregate (cands1 ++ cands2) prefs mapping entries := by
  simp only [structureRewardAggregate, aggregateScores, List.filterMap_append,
    List.filterMap_cons, h]

/-- Witness for the C7 evaluation theorem at the failing input: candidate
"Zeolite" has no valid structures while "Ni" has one CO relaxation at
-2 eV; the aggregate with "Zeolite" equals the aggregate without it (no
penalty enters the mean). -/
theorem C7_invalid_candidate_silently_dropped_witness :
    List.lookup ("Zeolite")
        (buildRewardValues [(("Ni_CO"), ("Ni"))]
          [(("0"), ("Ni_CO"), (-2 : ℚ))]) = none ∧
    structureRewardAggregate [("Ni"), ("Zeolite")] [1, 1]
        [(("Ni_CO"), ("Ni"))] [(("0"), ("Ni_CO"), (-2 : ℚ))] =
      structureRewardAggregate [("Ni")] [1, 1] [(("Ni_CO"), ("Ni"))]
        [(("0"), ("Ni_CO"), (-2 : ℚ))] :=
  ⟨rfl,
    C7_invalid_candidate_silently_dropped [("Ni")] [] ("Zeolite") [1, 1]
      [(("Ni_CO"), ("Ni"))] [(("0"), ("Ni_CO"), (-2 : ℚ))] rfl⟩

end SimReward

namespace CoherentPolicy

/-! ### Embedding of CoherentPolicy.get_actions (src/search/policy/coherent_policy.py)

The wrapped ReasonerPolicy.get_actions (search.policy.reasoner_policy, not
under src/) and the state's similarity method (search.state.reasoner_state,
not under src/) are external collaborators passed as parameters.  Machine
floats of the priors, similarities and the MinMaxScaler state are modelled
as exact rationals; the softmax (np exp arithmetic) maps into the reals.
Raising numpy/dict operations are embedded in Except: fancy-index
assignment full_sim_scores[np.array(idx)] = ... raises IndexError when idx
is the empty list (np.array([]) has float dtype, which numpy rejects as an
index), and state.info["priors"] raises KeyError when the key is absent.
MinMaxScaler.transform with the None reward (numpy converts None to nan,
which the scaler's allow-nan validation passes through) stores a nan,
modelled as a distinguished info value.
-/

/-- Values stored into the state's info mapping by get_actions. -/
inductive InfoVal where
  | qlist : List ℚ → InfoVal
  | qval : ℚ → InfoVal
  | rlist : List ℝ → InfoVal
  | nanV : InfoVal

/-- The state as get_actions sees it: an opaque payload (prompt/answer
context used only by the external collaborators), the optional stored
reward, and the info mapping with its nested priors dictionary. -/
structure PState (σ : Type _) where
  payload : σ
  reward : Option ℚ
  info : List (String × List (String × InfoVal))

/-- The MinMaxScaler state: the fitted data minimum and maximum. -/
structure MinMax where
  dataMin : ℚ
  dataMax : ℚ

/-- The scaler state after CoherentPolicy.__init__ (min_max.fit([[0]])). -/
def mmInit : MinMax := ⟨0, 0⟩

/-- Embedding of CoherentPolicy.transform_reward via the fitted
MinMaxScaler with feature range (0, 1): (x - min) / (max - min), the zero
range guarded to 1 as sklearn's handle-zeros does.  The NotFittedError
branch is dead code here: the scaler is fitted at construction. -/
def transformReward (mm : MinMax) (x : ℚ) : ℚ :=
  (x - mm.dataMin) /
    (if mm.dataMax - mm.dataMin = 0 then 1 else mm.dataMax - mm.dataMin)

/-- Embedding of the numpy fancy-index assignment
base[idx] = vals for a non-empty integer index list: positionwise
replacement. -/
def scatter (base : List ℚ) (idx : List Nat) (vals : List ℚ) : List ℚ :=
  match idx, vals with
  | i :: is, v :: vs => scatter (base.set i v) is vs
  | _, _ => base

theorem scatter_length (idx : List Nat) :
    ∀ (base vals : List ℚ), (scatter base idx vals).length = base.length := by
  induction idx with
  | nil => intro base vals; cases vals <;> rfl
  | cons i is ih =>
    intro base vals
    cases vals with
    | nil => rfl
    | cons v vs => simp [scatter, ih, List.length_set]

/-- The (index, action) pairs whose original prior is positive, in action
order — the loop of lines 78-81 building idx_trial_states and
trial_states. -/
def positivePairs {A : Type _} (actions : List A) (priors : List ℚ) :
    List (Nat × A) :=
  actions.enum.filterMap
    (fun p => if 0 < priors.getD p.1 0 then some p else none)

/-- Embedding of scipy softmax on a list: exp of each entry over the sum of
exps. -/
noncomputable def softmaxQ (xs : List ℚ) : List ℝ :=
  xs.map (fun x =>
    Real.exp (Rat.cast x) / ((xs.map (fun y => Real.exp (Rat.cast y))).sum))

/-- The pre-normalization priors of line 99: softmax(adjusted / temperature)
times the original priors. -/
noncomputable def preNormPriors (adj : List ℚ) (temperature : ℚ)
    (priors : List ℚ) : List ℝ :=
  List.zipWith (fun a b => a * b)
    (softmaxQ (adj.map (fun x => x / temperature)))
    (priors.map (fun q => (Rat.cast q : ℝ)))

/-- The returned priors of lines 99-102: the pre-normalization priors
divided by their sum. -/
noncomputable def coherentNewPriors (adj : List ℚ) (temperature : ℚ)
    (priors : List ℚ) : List ℝ :=
  (preNormPriors adj temperature priors).map
    (fun x => x / (preNormPriors adj temperature priors).sum)

/-- Embedding of lines 87-92: when the state carries a reward, re-weight the
similarities by the transformed reward; otherwise use them unchanged. -/
def rewardAdjusted (mm : MinMax) (reward : Option ℚ) (fullSim : List ℚ) :
    List ℚ :=
  match reward with
  | some r =>
    fullSim.map (fun s =>
      s * transformReward mm r + (1 - s) * (1 - transformReward mm r))
  | none => fullSim

theorem rewardAdjusted_length (mm : MinMax) (r : Option ℚ) (fs : List ℚ) :
    (rewardAdjusted mm r fs).length = fs.length := by
  cases r <;> simp [rewardAdjusted]

/-- The value stored under reward_adjustment_value (line 96): the
transformed reward, or nan when the reward is None (numpy converts None to
nan and the scaler passes it through). -/
def adjustmentVal (mm : MinMax) : Option ℚ → InfoVal
  | some r => .qval (transformReward mm r)
  | none => .nanV

/-- The reward-adjusted similarity scores of the call: zeros scattered with
the similarity outcomes of the positive-prior trial states, then re-weighted
by the transformed reward (lines 83-92). -/
def stepAdjusted {σ A : Type _} (base : PState σ → List A × List ℚ)
    (trialApply : A → PState σ → PState σ)
    (similarity : PState σ → List (PState σ) → List ℚ)
    (mm : MinMax) (state : PState σ) : List ℚ :=
  rewardAdjusted mm state.reward
    (scatter
      (List.replicate (base state).2.length 0)
      ((positivePairs (base state).1 (base state).2).map Prod.fst)
      (similarity state
        ((positivePairs (base state).1 (base state).2).map
          (fun p => trialApply p.2 state))))

/-- The successful result of get_actions (lines 94-105): the base actions,
the re-weighted priors, and the state whose info priors dictionary has the
three keys written. -/
noncomputable def okResult {σ A : Type _} (base : PState σ → List A × List ℚ)
    (trialApply : A → PState σ → PState σ)
    (similarity : PState σ → List (PState σ) → List ℚ)
    (temperature : ℚ) (mm : MinMax) (state : PState σ)
    (priorsDict : List (String × InfoVal)) :
    List A × List ℝ × PState σ :=
  let adj := stepAdjusted base trialApply similarity mm state
  let d1 := alistSet
    (alistSet priorsDict ("reward_adjusted_similarities") (.qlist adj))
    ("reward_adjustment_value") (adjustmentVal mm state.reward)
  let newPriors := coherentNewPriors adj temperature (base state).2
  let d2 := alistSet d1 ("values") (.rlist newPriors)
  ((base state).1, newPriors,
    { state with info := alistSet state.info ("priors") d2 })

/-- Embedding of CoherentPolicy.get_actions.  base stands for the wrapped
ReasonerPolicy.get_actions, trialApply for action application with
trial=True, similarity for the state's similarity method; mm is the scaler
state and temperature the constructor parameter.  Returns the actions, the
re-weighted priors and the state with its info["priors"] dictionary
updated in place — or the embedded IndexError/KeyError. -/
noncomputable def get_actions {σ A : Type _}
    (base : PState σ → List A × List ℚ)
    (trialApply : A → PState σ → PState σ)
    (similarity : PState σ → List (PState σ) → List ℚ)
    (temperature : ℚ) (mm : MinMax) (state : PState σ) :
    Except String (List A × List ℝ × PState σ) :=
  if (positivePairs (base state).1 (base state).2).map Prod.fst = [] then
    .error ("IndexError: arrays used as indices must be of integer or boolean type")
  else
    match List.lookup ("priors") state.info with
    | none => .error ("KeyError: priors")
    | some priorsDict =>
      .ok (okResult base trialApply similarity temperature mm state priorsDict)

/-- The branch conditions resolved, get_actions returns the ok result. -/
theorem get_actions_eq_ok {σ A : Type _} (base : PState σ → List A × List ℚ)
    (trialApply : A → PState σ → PState σ)
    (similarity : PState σ → List (PState σ) → List ℚ)
    (temperature : ℚ) (mm : MinMax) (state : PState σ)
    (d : List (String × InfoVal))
    (hidx : (positivePairs (base state).1 (base state).2).map Prod.fst ≠ [])
    (hd : List.lookup ("priors") state.info = some d) :
    get_actions base trialApply similarity temperature mm state =
      .ok (okResult base trialApply similarity temperature mm state d) := by
  simp only [get_actions]
  rw [if_neg hidx, hd]

/-! ### Sum-to-one of the returned priors -/

theorem sum_map_div (l : List ℝ) (c : ℝ) :
    (l.map (fun x => x / c)).sum = l.sum / c := by
  induction l with
  | nil => simp
  | cons h t ih => simp [ih, add_div]

theorem softmaxQ_pos (xs : List ℚ) (hne : xs ≠ []) :
    ∀ x ∈ softmaxQ xs, 0 < x := by
  intro x hx
  obtain ⟨q, _, rfl⟩ := List.mem_map.mp hx
  apply div_pos (Real.exp_pos _)
  apply List.sum_pos
  · intro y hy
    obtain ⟨q2, _, rfl⟩ := List.mem_map.mp hy
    exact Real.exp_pos _
  · exact fun hc => hne (List.map_eq_nil_iff.mp hc)

theorem coherentNewPriors_sum_one (adj : List ℚ) (temperature : ℚ)
    (priors : List ℚ) (hlen : adj.length = priors.length)
    (hnn : ∀ p ∈ priors, 0 ≤ p) (i : Nat)
    (hip : 0 < priors.getD i 0) :
    (coherentNewPriors adj temperature priors).sum = 1 := by
  have hi : i < priors.length := by
    by_contra hc
    rw [List.getD_eq_default _ _ (le_of_not_lt hc)] at hip
    exact lt_irrefl 0 hip
  have hscne : adj.map (fun x => x / temperature) ≠ [] := by
    intro hc
    have h0 := List.map_eq_nil_iff.mp hc
    rw [h0] at hlen
    simp at hlen
    omega
  have hsmlen : (softmaxQ (adj.map (fun x => x / temperature))).length =
      priors.length := by
    simp only [softmaxQ, List.length_map]
    exact hlen
  have hwlen : (preNormPriors adj temperature priors).length =
      priors.length := by
    simp only [preNormPriors, List.length_zipWith, List.length_map, hsmlen]
    exact min_self _
  have hwnn : ∀ x ∈ preNormPriors adj temperature priors, 0 ≤ x := by
    intro x hx
    simp only [preNormPriors] at hx
    obtain ⟨j, hj, rfl⟩ := List.mem_iff_getElem.mp hx
    simp only [List.getElem_zipWith, List.getElem_map]
    refine mul_nonneg
      (le_of_lt (softmaxQ_pos _ hscne _ (List.getElem_mem _))) ?_
    exact_mod_cast hnn _ (List.getElem_mem _)
  have hiw : i < (preNormPriors adj temperature priors).length := by omega
  have hex : ∃ x ∈ preNormPriors adj temperature priors, 0 < x := by
    refine ⟨_, List.getElem_mem hiw, ?_⟩
    simp only [preNormPriors, List.getElem_zipWith, List.getElem_map]
    refine mul_pos (softmaxQ_pos _ hscne _ (List.getElem_mem _)) ?_
    rw [List.getD_eq_getElem _ _ hi] at hip
    exact_mod_cast hip
  obtain ⟨x0, hx0m, hx0⟩ := hex
  have hS : 0 < (preNormPriors adj temperature priors).sum :=
    lt_of_lt_of_le hx0 (List.single_le_sum hwnn _ hx0m)
  show ((preNormPriors adj temperature priors).map
      (fun x => x / (preNormPriors adj temperature priors).sum)).sum = 1
  rw [sum_map_div, div_self (ne_of_gt hS)]

/-- When some action index has positive prior, the positive-pair list is
non-empty, so the fancy-index branch is not taken. -/
theorem positivePairs_ne_nil {A : Type _} (actions : List A)
    (priors : List ℚ) (i : Nat) (hia : i < actions.length)
    (hip : 0 < priors.getD i 0) :
    positivePairs actions priors ≠ [] := by
  have hmem : (i, actions[i]) ∈ positivePairs actions priors := by
    apply List.mem_filterMap.mpr
    refine ⟨(i, actions[i]), ?_, ?_⟩
    · have hlen : i < actions.enum.length := by
        rw [List.enum_length]
        exact hia
      have := List.getElem_enum actions i hlen
      rw [← this]
      exact List.getElem_mem hlen
    · rw [if_pos hip]
  intro hc
  rw [hc] at hmem
  exact List.not_mem_nil _ hmem

/-! ### Claim C6 -/

/-- C6 (amended): for a state whose info mapping carries the priors entry,
when at least one action has positive original prior (and the original
priors are non-negative, per the policy contract, with a positive softmax
temperature), get_actions succeeds and the returned priors — softmax of the
adjusted scores over temperature, times the original priors, renormalized —
sum to exactly 1; the no-positive-prior case is settled separately: the
call raises instead of returning an empty result. -/
theorem C6_amended_priors_sum_one {σ A : Type _}
    (base : PState σ → List A × List ℚ)
    (trialApply : A → PState σ → PState σ)
    (similarity : PState σ → List (PState σ) → List ℚ)
    (temperature : ℚ) (mm : MinMax) (state : PState σ)
    (hT : 0 < temperature)
    (hnn : ∀ p ∈ (base state).2, 0 ≤ p)
    (hpos : ∃ i, i < (base state).1.length ∧ 0 < (base state).2.getD i 0)
    (hkey : (List.lookup ("priors") state.info).isSome = true) :
    ∃ acts newPriors st2,
      get_actions base trialApply similarity temperature mm state =
        .ok (acts, newPriors, st2) ∧ newPriors.sum = 1 := by
  obtain ⟨i, hia, hip⟩ := hpos
  obtain ⟨d, hd⟩ := Option.isSome_iff_exists.mp hkey
  have hpairs := positivePairs_ne_nil (base state).1 (base state).2 i hia hip
  have hidx : (positivePairs (base state).1 (base state).2).map Prod.fst ≠
      [] := by
    intro hc
    exact hpairs (List.map_eq_nil_iff.mp hc)
  refine ⟨(okResult base trialApply similarity temperature mm state d).1,
    (okResult base trialApply similarity temperature mm state d).2.1,
    (okResult base trialApply similarity temperature mm state d).2.2,
    get_actions_eq_ok base trialApply similarity temperature mm state d hidx
      hd, ?_⟩
  show (coherentNewPriors (stepAdjusted base trialApply similarity mm state)
      temperature (base state).2).sum = 1
  apply coherentNewPriors_sum_one _ _ _ ?_ hnn i hip
  simp only [stepAdjusted, rewardAdjusted_length, scatter_length,
    List.length_replicate]

/-- Concrete state for the coherent-policy witnesses: no reward yet, an
info mapping holding an empty priors dictionary. -/
def exPState : PState Unit := ⟨(), none, [(("priors"), [])]⟩

/-- Concrete base policy with two positive-prior actions. -/
def exBasePos : PState Unit → List Unit × List ℚ := fun _ => ([(), ()], [1, 1])

/-- Concrete trial application (identity). -/
def exTrialApply : Unit → PState Unit → PState Unit := fun _ s => s

/-- Concrete similarity collaborator. -/
def exSim : PState Unit → List (PState Unit) → List ℚ :=
  fun _ ts => List.replicate ts.length (1 / 2)

/-- Witness for the amended C6 at a concrete state and policy. -/
theorem C6_amended_priors_sum_one_witness :
    ∃ acts newPriors st2,
      get_actions exBasePos exTrialApply exSim (3 / 5) mmInit exPState =
        .ok (acts, newPriors, st2) ∧ newPriors.sum = 1 :=
  C6_amended_priors_sum_one exBasePos exTrialApply exSim (3 / 5) mmInit
    exPState (by norm_num)
    (by
      intro p hp
      simp [exBasePos] at hp
      simp [hp])
    ⟨0, by simp [exBasePos], by simp [exBasePos]⟩ rfl

/-- Concrete base policy with no positive prior. -/
def exBaseZero : PState Unit → List Unit × List ℚ :=
  fun _ => ([(), ()], [0, 0])

/-- Counterexample to C6 as stated: with no action of positive original
prior the call does not return an empty result — it fails with the
IndexError numpy raises for the empty (float dtype) index array. -/
theorem C6_counterexample_zero_priors_raise :
    (∀ p ∈ (exBaseZero exPState).2, ¬0 < p) ∧
    get_actions exBaseZero exTrialApply exSim (3 / 5) mmInit exPState =
      .error ("IndexError: arrays used as indices must be of integer or boolean type") := by
  constructor
  · intro p hp
    simp [exBaseZero] at hp
    simp [hp]
  · rfl

/-! ### Claim C10 -/

/-- C10: get_actions mutates the state it is given — whenever some action
has positive original prior and the state's info mapping already carries
the priors entry (a KeyError otherwise), the call succeeds and the returned
state's info priors dictionary contains the keys
reward_adjusted_similarities, reward_adjustment_value and values written by
the call; the state argument is not treated as read-only. -/
theorem C10_get_actions_writes_info {σ A : Type _}
    (base : PState σ → List A × List ℚ)
    (trialApply : A → PState σ → PState σ)
    (similarity : PState σ → List (PState σ) → List ℚ)
    (temperature : ℚ) (mm : MinMax) (state : PState σ)
    (d : List (String × InfoVal))
    (hkey : List.lookup ("priors") state.info = some d)
    (hpos : ∃ i, i < (base state).1.length ∧ 0 < (base state).2.getD i 0) :
    ∃ acts newPriors st2 d2,
      get_actions base trialApply similarity temperature mm state =
        .ok (acts, newPriors, st2) ∧
      List.lookup ("priors") st2.info = some d2 ∧
      (List.lookup ("reward_adjusted_similarities") d2).isSome = true ∧
      (List.lookup ("reward_adjustment_value") d2).isSome = true ∧
      (List.lookup ("values") d2).isSome = true := by
  obtain ⟨i, hia, hip⟩ := hpos
  have hpairs := positivePairs_ne_nil (base state).1 (base state).2 i hia hip
  have hidx : (positivePairs (base state).1 (base state).2).map Prod.fst ≠
      [] := by
    intro hc
    exact hpairs (List.map_eq_nil_iff.mp hc)
  refine ⟨(okResult base trialApply similarity temperature mm state d).1,
    (okResult base trialApply similarity temperature mm state d).2.1,
    (okResult base trialApply similarity temperature mm state d).2.2,
    alistSet
      (alistSet
        (alistSet d ("reward_adjusted_similarities")
          (.qlist (stepAdjusted base trialApply similarity mm state)))
        ("reward_adjustment_value") (adjustmentVal mm state.reward))
      ("values")
      (.rlist (coherentNewPriors
        (stepAdjusted base trialApply similarity mm state) temperature
        (base state).2)),
    get_actions_eq_ok base trialApply similarity temperature mm state d hidx
      hkey, ?_, ?_, ?_, ?_⟩
  · exact alistSet_lookup_self _ _ _
  · rw [alistSet_lookup_other _ _ _ _ (by decide),
      alistSet_lookup_other _ _ _ _ (by decide), alistSet_lookup_self]
    rfl
  · rw [alistSet_lookup_other _ _ _ _ (by decide), alistSet_lookup_self]
    rfl
  · rw [alistSet_lookup_self]
    rfl

/-- Witness for C10 at a concrete state and policy. -/
theorem C10_get_actions_writes_info_witness :
    ∃ acts newPriors st2 d2,
      get_actions exBasePos exTrialApply exSim (3 / 5) mmInit exPState =
        .ok (acts, newPriors, st2) ∧
      List.lookup ("priors") st2.info = some d2 ∧
      (List.lookup ("reward_adjusted_similarities") d2).isSome = true ∧
      (List.lookup ("reward_adjustment_value") d2).isSome = true ∧
      (List.lookup ("values") d2).isSome = true :=
  C10_get_actions_writes_info exBasePos exTrialApply exSim (3 / 5) mmInit
    exPState [] rfl ⟨0, by simp [exBasePos], by simp [exBasePos]⟩

end CoherentPolicy
